import Mathlib

/-!
Shallow embedding of the super-tic-tac-toe game engine
(`src/gameLogic.js`) and of the persistence hydration layer
(`src/gameStore.js`), with proofs of the specified properties.

Conventions of the embedding:
* a JS marker string `"X"` / `"O"` is `Marker.X` / `Marker.O`; the JS
  `null` cell is `none`, an occupied cell is `some m`;
* JS array indexing `xs[i]` (which yields `undefined` out of range or
  for a negative index) is `jsGet xs i : Option α`, with `none` playing
  the role of `undefined`;
* board and cell indexes are `Int`, since the JS functions accept
  arbitrary numbers and rely on out-of-range lookups degenerating to
  `undefined`.
-/

namespace SuperTTT

inductive Marker where
  | X : Marker
  | O : Marker
deriving DecidableEq

/-- JS array read: `xs[i]` is `undefined` (here `none`) when `i` is
negative or past the end of the array. -/
def jsGet {α : Type} (xs : List α) (i : Int) : Option α :=
  if 0 ≤ i then xs[i.toNat]? else none

/-- Local board record from `createInitialGameState` / `makeMove`
(src/gameLogic.js): `cells`, `winner`, `isDraw`. -/
structure Board where
  cells : List (Option Marker)
  winner : Option Marker
  isDraw : Bool
deriving DecidableEq

/-- Game-state record from `createInitialGameState` (src/gameLogic.js
lines 20-32): size, currentPlayer, nextBoardIndex, winner, isDraw,
moveCount, boards. -/
structure GameState where
  size : Nat
  currentPlayer : Marker
  nextBoardIndex : Option Int
  winner : Option Marker
  isDraw : Bool
  moveCount : Nat
  boards : List Board
deriving DecidableEq

/-- Embeds `normalizeSize` (src/gameLogic.js lines 3-9): parse as an
integer, fall back to the default size 3 when below 2. -/
def normalizeSize (rawValue : Int) : Nat :=
  if rawValue < 2 then 3 else rawValue.toNat

/-- Embeds `createInitialGameState` (src/gameLogic.js lines 16-33). -/
def createInitialGameState (requestedSize : Int) : GameState :=
  let size := normalizeSize requestedSize
  let boardCellCount := size * size
  { size := size
    currentPlayer := Marker.X
    nextBoardIndex := none
    winner := none
    isDraw := false
    moveCount := 0
    boards := List.replicate boardCellCount
      { cells := List.replicate boardCellCount none
        winner := none
        isDraw := false } }

/-- JS test `cells[i] === player` inside `getLineWinner`: true only when
the slot exists and holds exactly that marker (`undefined` and `null`
both fail the test). -/
def cellIs (cells : List (Option Marker)) (i : Nat) (player : Marker) : Bool :=
  decide (cells[i]? = some (some player))

/-- Embeds the per-player body of `getLineWinner` (src/gameLogic.js
lines 37-83): some full row, some full column, the main diagonal, or
the anti-diagonal is entirely `player`. -/
def lineWinFor (cells : List (Option Marker)) (size : Nat) (player : Marker) : Bool :=
  ((List.range size).any fun row =>
    (List.range size).all fun col => cellIs cells (row * size + col) player) ||
  ((List.range size).any fun col =>
    (List.range size).all fun row => cellIs cells (row * size + col) player) ||
  ((List.range size).all fun i => cellIs cells (i * size + i) player) ||
  ((List.range size).all fun i => cellIs cells (i * size + (size - 1 - i)) player)

/-- Embeds `getLineWinner` (src/gameLogic.js lines 35-87): X is checked
before O, and `null` is returned when neither player completes a line. -/
def getLineWinner (cells : List (Option Marker)) (size : Nat) : Option Marker :=
  if lineWinFor cells size Marker.X then some Marker.X
  else if lineWinFor cells size Marker.O then some Marker.O
  else none

/-- Embeds `isBoardResolved` (src/gameLogic.js line 89). -/
def isBoardResolved (board : Board) : Bool :=
  board.winner.isSome || board.isDraw

/-- Embeds `getForcedBoardIndexIfPlayable` (src/gameLogic.js lines
91-102). -/
def getForcedBoardIndexIfPlayable (state : GameState) : Option Int :=
  match state.nextBoardIndex with
  | none => none
  | some idx =>
    match jsGet state.boards idx with
    | none => none
    | some forcedBoard =>
      if isBoardResolved forcedBoard then none else some idx

/-- Embeds `canPlayInBoard` (src/gameLogic.js lines 104-120). -/
def canPlayInBoard (state : GameState) (boardIndex : Int) : Bool :=
  if state.winner.isSome || state.isDraw then false
  else
    match jsGet state.boards boardIndex with
    | none => false
    | some board =>
      if isBoardResolved board then false
      else
        match getForcedBoardIndexIfPlayable state with
        | none => true
        | some forcedBoardIndex => decide (forcedBoardIndex = boardIndex)

/-- Embeds `togglePlayer` (src/gameLogic.js line 132). -/
def togglePlayer (player : Marker) : Marker :=
  if player = Marker.X then Marker.O else Marker.X

/-- Embeds the legal branch of `makeMove` (src/gameLogic.js lines
144-177), split out under a name so the proofs can refer to it;
`makeMove` below dispatches to it after the two guard checks. When this
branch runs, the occupied check has established that
`board.cells[cellIndex]` is exactly `null` (`some none` here), so
`cellIndex` is a valid index into `board.cells`. -/
def applyMove (state : GameState) (board : Board) (boardIndex cellIndex : Int) : GameState :=
  let updatedCells := board.cells.set cellIndex.toNat (some state.currentPlayer)
  let localWinner := getLineWinner updatedCells state.size
  let localDraw := !localWinner.isSome && updatedCells.all fun cell => cell.isSome
  let updatedBoards := state.boards.set boardIndex.toNat
    { cells := updatedCells, winner := localWinner, isDraw := localDraw }
  let metaCells := updatedBoards.map fun smallBoard => smallBoard.winner
  let winner := getLineWinner metaCells state.size
  let isDraw := !winner.isSome && updatedBoards.all fun smallBoard =>
    isBoardResolved smallBoard
  let nextBoardIndex : Option Int :=
    if winner.isSome || isDraw then none
    else
      match jsGet updatedBoards cellIndex with
      | none => none
      | some nextBoard =>
        if isBoardResolved nextBoard then none else some cellIndex
  { state with
    boards := updatedBoards
    moveCount := state.moveCount + 1
    winner := winner
    isDraw := isDraw
    nextBoardIndex := nextBoardIndex
    currentPlayer :=
      if winner.isSome || isDraw then state.currentPlayer
      else togglePlayer state.currentPlayer }

/-- Embeds `makeMove` (src/gameLogic.js lines 134-178): dispatch over
the two guard checks, then run the legal branch `applyMove`. The
occupied check `board.cells[cellIndex] !== null` rejects both occupied
slots and out-of-range lookups (`undefined !== null` is true in JS), so
the legal branch runs only when the lookup returns exactly `null`,
`some none` here. -/
def makeMove (state : GameState) (boardIndex cellIndex : Int) : GameState :=
  if canPlayInBoard state boardIndex then
    match jsGet state.boards boardIndex with
    | none => state
    | some board =>
      if jsGet board.cells cellIndex = some none then
        applyMove state board boardIndex cellIndex
      else state
  else state

/-- Embeds `normalizeMarker` (src/gameStore.js line 19): keep `"X"` and
`"O"`, turn anything else into `null`. On typed marker values this is
the identity, by cases. -/
def normalizeMarker (value : Option Marker) : Option Marker :=
  match value with
  | some Marker.X => some Marker.X
  | some Marker.O => some Marker.O
  | none => none

/-- Embeds the inner `reduce` of `countMoves` (src/gameStore.js line
23): the number of occupied cells of one board. -/
def countBoardMoves (board : Board) : Nat :=
  board.cells.foldl (fun count value => count + if value.isSome then 1 else 0) 0

/-- Embeds `countMoves` (src/gameStore.js lines 21-25): total occupied
cells over all boards. -/
def countMoves (boards : List Board) : Nat :=
  boards.foldl (fun total board => total + countBoardMoves board) 0

/-- Embeds `hydrateGameState` (src/gameStore.js lines 27-69) applied to
the serialized form of a well-typed `GameState` (the JSON round-trip is
the identity on these plain records, so serialization is the identity
of the embedding). The dynamic-type guards of the source
(`Array.isArray`, `Number.isInteger(moveCount) && moveCount >= 0`)
always succeed on such a record and are therefore not represented;
index-range guards and the winner/isDraw coercions are kept verbatim. -/
def hydrateGameState (rawState : GameState) : GameState :=
  let size := normalizeSize (rawState.size : Int)
  let boardCellCount := size * size
  let boards := (List.range boardCellCount).map fun boardIndex =>
    let rawBoard := rawState.boards[boardIndex]?
    let cells := (List.range boardCellCount).map fun cellIndex =>
      match rawBoard with
      | none => none
      | some b =>
        match b.cells[cellIndex]? with
        | none => none
        | some rawCell => normalizeMarker rawCell
    let winner :=
      match rawBoard with
      | none => none
      | some b => normalizeMarker b.winner
    let isDraw := !winner.isSome &&
      (match rawBoard with
       | none => false
       | some b => b.isDraw)
    ({ cells := cells, winner := winner, isDraw := isDraw } : Board)
  let nextBoardIndex :=
    match rawState.nextBoardIndex with
    | none => none
    | some idx =>
      if 0 ≤ idx ∧ idx < (boardCellCount : Int) then some idx else none
  { size := size
    boards := boards
    moveCount := rawState.moveCount
    currentPlayer :=
      match rawState.currentPlayer with
      | Marker.O => Marker.O
      | _ => Marker.X
    nextBoardIndex := nextBoardIndex
    winner := normalizeMarker rawState.winner
    isDraw := !(normalizeMarker rawState.winner).isSome && rawState.isDraw }

/-- States reachable from `createInitialGameState` by `makeMove` calls
(legal or rejected; rejected calls return the state unchanged). -/
inductive Reachable : GameState → Prop where
  | init (requestedSize : Int) : Reachable (createInitialGameState requestedSize)
  | step (state : GameState) (boardIndex cellIndex : Int) :
      Reachable state → Reachable (makeMove state boardIndex cellIndex)

/-- Key names of the object literal returned by `createInitialGameState`
(src/gameLogic.js lines 20-31), in source order. -/
def gameStateKeys : List String :=
  ["size", "currentPlayer", "nextBoardIndex", "winner", "isDraw", "moveCount", "boards"]

/-- Key names written explicitly in the object literal returned by
`makeMove` (src/gameLogic.js lines 169-177), after the `...state`
spread. -/
def makeMoveUpdatedKeys : List String :=
  ["boards", "moveCount", "winner", "isDraw", "nextBoardIndex", "currentPlayer"]

/-- Key set of the object literal `{ ...state, <updates> }` returned by
`makeMove`: the input's keys, followed by any explicitly written key not
already present. -/
def makeMoveResultKeys (stateKeys : List String) : List String :=
  stateKeys ++ makeMoveUpdatedKeys.filter fun key => !stateKeys.contains key

/-! Spec-side definitions: written from the specification's words, for
comparison with the embedded source functions. -/

/-- Spec-side line predicate: some full row, full column, or one of the
two full diagonals of the row-major `size * size` grid `cells` is
entirely the marker `m`. -/
def specHasLine (cells : List (Option Marker)) (size : Nat) (m : Marker) : Prop :=
  (∃ row < size, ∀ col < size, cells[row * size + col]? = some (some m)) ∨
  (∃ col < size, ∀ row < size, cells[row * size + col]? = some (some m)) ∨
  (∀ i < size, cells[i * size + i]? = some (some m)) ∨
  (∀ i < size, cells[i * size + (size - 1 - i)]? = some (some m))

/-! Basic lemmas. -/

theorem jsGet_eq_some {α : Type} {xs : List α} {i : Int} {v : α}
    (h : jsGet xs i = some v) :
    0 ≤ i ∧ i.toNat < xs.length ∧ xs[i.toNat]? = some v := by
  unfold jsGet at h
  split at h
  · refine ⟨by assumption, ?_, h⟩
    exact (List.getElem?_eq_some.mp h).1
  · exact absurd h (by simp)

theorem lineWinFor_iff (cells : List (Option Marker)) (size : Nat) (p : Marker) :
    lineWinFor cells size p = true ↔ specHasLine cells size p := by
  simp [lineWinFor, specHasLine, cellIs, List.any_eq_true, List.all_eq_true,
    List.mem_range, decide_eq_true_iff]
  rw [or_assoc, or_assoc]

/-- Characterization of `getLineWinner` against the spec-side line
predicate: a marker is returned exactly when it completes a line, with
X checked before O as the fixed tie-break. -/
theorem getLineWinner_eq_some_iff (cells : List (Option Marker)) (size : Nat) (m : Marker) :
    getLineWinner cells size = some m ↔
      specHasLine cells size m ∧ (m = Marker.O → ¬ specHasLine cells size Marker.X) := by
  have hx := lineWinFor_iff cells size Marker.X
  have ho := lineWinFor_iff cells size Marker.O
  cases m <;>
    by_cases hX : lineWinFor cells size Marker.X = true <;>
    by_cases hO : lineWinFor cells size Marker.O = true <;>
    simp [getLineWinner, hX, hO, ← hx, ← ho]

/-- Characterization of `getLineWinner` returning no winner. -/
theorem getLineWinner_eq_none_iff (cells : List (Option Marker)) (size : Nat) :
    getLineWinner cells size = none ↔
      ¬ specHasLine cells size Marker.X ∧ ¬ specHasLine cells size Marker.O := by
  have hx := lineWinFor_iff cells size Marker.X
  have ho := lineWinFor_iff cells size Marker.O
  by_cases hX : lineWinFor cells size Marker.X = true <;>
    by_cases hO : lineWinFor cells size Marker.O = true <;>
    simp [getLineWinner, hX, hO, ← hx, ← ho]

/-! Unfolding lemmas for `makeMove`. -/

theorem makeMove_of_cannot_play {s : GameState} {b : Int} (c : Int)
    (h : canPlayInBoard s b = false) : makeMove s b c = s := by
  simp [makeMove, h]

theorem makeMove_of_occupied {s : GameState} {b c : Int} {bd : Board}
    (hbd : jsGet s.boards b = some bd)
    (h : jsGet bd.cells c ≠ some none) : makeMove s b c = s := by
  unfold makeMove
  split
  · rw [hbd]
    simp [h]
  · rfl

theorem makeMove_eq_applyMove {s : GameState} {b c : Int} {bd : Board}
    (hcan : canPlayInBoard s b = true)
    (hbd : jsGet s.boards b = some bd)
    (hempty : jsGet bd.cells c = some none) :
    makeMove s b c = applyMove s bd b c := by
  unfold makeMove
  rw [hcan, hbd]
  simp [hempty]

theorem jsGet_set_self {α : Type} {xs : List α} {i : Int} (w : α)
    (h0 : 0 ≤ i) (h : i.toNat < xs.length) :
    jsGet (xs.set i.toNat w) i = some w := by
  simp only [jsGet, if_pos h0]
  exact List.getElem?_set_eq_of_lt w h

/-- Local board written by the legal branch of `makeMove`: the played
cell is set and the board's status fields are recomputed. -/
theorem applyMove_boards (s : GameState) (bd : Board) (b c : Int) :
    (applyMove s bd b c).boards = s.boards.set b.toNat
      { cells := bd.cells.set c.toNat (some s.currentPlayer)
        winner := getLineWinner (bd.cells.set c.toNat (some s.currentPlayer)) s.size
        isDraw := !(getLineWinner (bd.cells.set c.toNat (some s.currentPlayer)) s.size).isSome &&
          (bd.cells.set c.toNat (some s.currentPlayer)).all fun cell => cell.isSome } := rfl

theorem applyMove_size (s : GameState) (bd : Board) (b c : Int) :
    (applyMove s bd b c).size = s.size := rfl

theorem applyMove_moveCount (s : GameState) (bd : Board) (b c : Int) :
    (applyMove s bd b c).moveCount = s.moveCount + 1 := rfl

theorem applyMove_winner (s : GameState) (bd : Board) (b c : Int) :
    (applyMove s bd b c).winner =
      getLineWinner ((applyMove s bd b c).boards.map fun smallBoard => smallBoard.winner)
        s.size := rfl

theorem applyMove_isDraw (s : GameState) (bd : Board) (b c : Int) :
    (applyMove s bd b c).isDraw =
      (!(applyMove s bd b c).winner.isSome &&
        (applyMove s bd b c).boards.all fun smallBoard => isBoardResolved smallBoard) := rfl

theorem applyMove_nextBoardIndex (s : GameState) (bd : Board) (b c : Int) :
    (applyMove s bd b c).nextBoardIndex =
      (if (applyMove s bd b c).winner.isSome || (applyMove s bd b c).isDraw then none
       else
         match jsGet (applyMove s bd b c).boards c with
         | none => none
         | some nextBoard =>
           if isBoardResolved nextBoard then none else some c) := rfl

theorem applyMove_currentPlayer (s : GameState) (bd : Board) (b c : Int) :
    (applyMove s bd b c).currentPlayer =
      (if (applyMove s bd b c).winner.isSome || (applyMove s bd b c).isDraw
       then s.currentPlayer else togglePlayer s.currentPlayer) := rfl

/-- Empty local board of the default 3-game, used by the concrete
witnesses below. -/
def emptyBoard3 : Board :=
  { cells := List.replicate 9 none, winner := none, isDraw := false }

theorem canPlayInBoard_of_terminal {s : GameState} (b : Int)
    (h : s.winner.isSome = true ∨ s.isDraw = true) :
    canPlayInBoard s b = false := by
  unfold canPlayInBoard
  have hterm : (s.winner.isSome || s.isDraw) = true := by
    rcases h with h | h <;> simp [h]
  simp [hterm]

/-- C1: `makeMove` returns the input state unchanged when the target
board is not playable or the target cell lookup is not exactly an empty
slot (occupied, or out of range); otherwise it fully applies the move:
the move counter advances and the played cell is written. -/
theorem C1_makeMove_noop_or_full_application (s : GameState) (b c : Int) :
    (canPlayInBoard s b = false → makeMove s b c = s) ∧
    (∀ bd, jsGet s.boards b = some bd → jsGet bd.cells c ≠ some none →
      makeMove s b c = s) ∧
    (∀ bd, canPlayInBoard s b = true → jsGet s.boards b = some bd →
      jsGet bd.cells c = some none →
      (makeMove s b c).moveCount = s.moveCount + 1 ∧
      ∃ bd2, jsGet (makeMove s b c).boards b = some bd2 ∧
        bd2.cells = bd.cells.set c.toNat (some s.currentPlayer)) := by
  refine ⟨fun h => makeMove_of_cannot_play c h,
    fun bd hbd h => makeMove_of_occupied hbd h,
    fun bd hcan hbd hempty => ?_⟩
  rw [makeMove_eq_applyMove hcan hbd hempty]
  obtain ⟨hb0, hblt, -⟩ := jsGet_eq_some hbd
  refine ⟨applyMove_moveCount s bd b c, ?_⟩
  rw [applyMove_boards]
  exact ⟨_, jsGet_set_self _ hb0 hblt, rfl⟩

/-- Witness for C1 at the fresh 3-game: the first move at board 0,
cell 4 is applied fully. -/
theorem C1_witness :
    canPlayInBoard (createInitialGameState 3) 0 = true ∧
    jsGet (createInitialGameState 3).boards 0 = some emptyBoard3 ∧
    jsGet emptyBoard3.cells 4 = some none ∧
    (makeMove (createInitialGameState 3) 0 4).moveCount = 1 := by
  refine ⟨by decide, by decide, by decide, ?_⟩
  have h := (C1_makeMove_noop_or_full_application (createInitialGameState 3) 0 4).2.2
    emptyBoard3 (by decide) (by decide) (by decide)
  exact h.1

/-- C2: a terminal state (top-level winner set or draw) is absorbed by
every `makeMove` attempt: the state comes back unchanged. -/
theorem C2_terminal_state_absorbs_moves (s : GameState) (b c : Int)
    (h : s.winner.isSome = true ∨ s.isDraw = true) :
    makeMove s b c = s :=
  makeMove_of_cannot_play c (canPlayInBoard_of_terminal b h)

/-- Witness for C2: a drawn state rejects a move attempt unchanged. -/
theorem C2_witness :
    ({ createInitialGameState 3 with isDraw := true } : GameState).isDraw = true ∧
    makeMove { createInitialGameState 3 with isDraw := true } 0 0 =
      { createInitialGameState 3 with isDraw := true } :=
  ⟨rfl, C2_terminal_state_absorbs_moves _ 0 0 (Or.inr rfl)⟩

/-- C7: after a legal move, the player to move flips to the other
marker exactly when the game is not over; when the move ended the game,
the player field is left as the mover. -/
theorem C7_currentPlayer_toggle (s : GameState) (b c : Int) (bd : Board)
    (hcan : canPlayInBoard s b = true)
    (hbd : jsGet s.boards b = some bd)
    (hempty : jsGet bd.cells c = some none) :
    ((makeMove s b c).winner = none ∧ (makeMove s b c).isDraw = false →
      (makeMove s b c).currentPlayer =
        (match s.currentPlayer with
         | Marker.X => Marker.O
         | Marker.O => Marker.X)) ∧
    (((makeMove s b c).winner.isSome = true ∨ (makeMove s b c).isDraw = true) →
      (makeMove s b c).currentPlayer = s.currentPlayer) := by
  rw [makeMove_eq_applyMove hcan hbd hempty]
  constructor
  · intro hover
    obtain ⟨hw, hd⟩ := hover
    rw [applyMove_currentPlayer, if_neg (by simp [hw, hd])]
    cases hp : s.currentPlayer <;> simp [togglePlayer, hp]
  · intro hover
    rw [applyMove_currentPlayer]
    apply if_pos
    rcases hover with hw | hd
    · simp [hw]
    · simp [hd]

/-- Witness for C7: the first move of the fresh 3-game does not end the
game, so the player to move becomes O. -/
theorem C7_witness :
    canPlayInBoard (createInitialGameState 3) 0 = true ∧
    jsGet (createInitialGameState 3).boards 0 = some emptyBoard3 ∧
    jsGet emptyBoard3.cells 4 = some none ∧
    (makeMove (createInitialGameState 3) 0 4).currentPlayer = Marker.O := by
  refine ⟨by decide, by decide, by decide, ?_⟩
  have h := (C7_currentPlayer_toggle (createInitialGameState 3) 0 4 emptyBoard3
    (by decide) (by decide) (by decide)).1 (by decide)
  exact h

/-- C10: with the target board playable and of the well-formed cell
count `size * size`, a cell index outside `[0, size * size)` fails the
occupied check (the JS lookup yields `undefined`, treated like an
occupied cell), so `makeMove` returns the input state unchanged and no
marker is ever written outside the cell array. -/
theorem C10_out_of_range_cell_noop (s : GameState) (b c : Int) (bd : Board)
    (hcan : canPlayInBoard s b = true)
    (hbd : jsGet s.boards b = some bd)
    (hlen : bd.cells.length = s.size * s.size)
    (hc : c < 0 ∨ (s.size * s.size : Int) ≤ c) :
    makeMove s b c = s := by
  apply makeMove_of_occupied hbd
  intro h
  obtain ⟨hc0, hclt, -⟩ := jsGet_eq_some h
  rw [hlen] at hclt
  omega

/-- Witness for C10: the fresh 3-game rejects cell index 9 of board 0
(the valid indexes are 0..8). -/
theorem C10_witness :
    canPlayInBoard (createInitialGameState 3) 0 = true ∧
    jsGet (createInitialGameState 3).boards 0 = some emptyBoard3 ∧
    emptyBoard3.cells.length = 3 * 3 ∧
    makeMove (createInitialGameState 3) 0 9 = createInitialGameState 3 := by
  refine ⟨by decide, by decide, by decide, ?_⟩
  exact C10_out_of_range_cell_noop (createInitialGameState 3) 0 9 emptyBoard3
    (by decide) (by decide) (by decide) (Or.inr (by decide))

/-- C3: after a legal move, the target board's recomputed winner is a
marker exactly when that marker completes a full row, column, or
diagonal of the board's cells (X checked before O as the fixed
tie-break), and the board is a draw exactly when it has no winner and
every cell is occupied. -/
theorem C3_local_board_status (s : GameState) (b c : Int) (bd : Board)
    (hcan : canPlayInBoard s b = true)
    (hbd : jsGet s.boards b = some bd)
    (hempty : jsGet bd.cells c = some none) :
    ∃ bd2, jsGet (makeMove s b c).boards b = some bd2 ∧
      bd2.cells = bd.cells.set c.toNat (some s.currentPlayer) ∧
      (∀ m, bd2.winner = some m ↔
        specHasLine bd2.cells s.size m ∧
          (m = Marker.O → ¬ specHasLine bd2.cells s.size Marker.X)) ∧
      (bd2.isDraw = true ↔
        bd2.winner = none ∧ ∀ cell ∈ bd2.cells, cell.isSome = true) := by
  rw [makeMove_eq_applyMove hcan hbd hempty, applyMove_boards]
  obtain ⟨hb0, hblt, -⟩ := jsGet_eq_some hbd
  refine ⟨_, jsGet_set_self _ hb0 hblt, rfl, ?_, ?_⟩
  · intro m
    exact getLineWinner_eq_some_iff _ _ m
  · show (!(getLineWinner _ _).isSome && List.all _ _) = true ↔ _
    simp [List.all_eq_true, Option.not_isSome_iff_eq_none, Bool.and_eq_true]

/-- Witness for C3 at the fresh 3-game, first move at board 0 cell 4. -/
theorem C3_witness :
    canPlayInBoard (createInitialGameState 3) 0 = true ∧
    jsGet (createInitialGameState 3).boards 0 = some emptyBoard3 ∧
    jsGet emptyBoard3.cells 4 = some none ∧
    ∃ bd2, jsGet (makeMove (createInitialGameState 3) 0 4).boards 0 = some bd2 ∧
      bd2.cells = emptyBoard3.cells.set 4 (some Marker.X) ∧
      (∀ m, bd2.winner = some m ↔
        specHasLine bd2.cells 3 m ∧
          (m = Marker.O → ¬ specHasLine bd2.cells 3 Marker.X)) ∧
      (bd2.isDraw = true ↔
        bd2.winner = none ∧ ∀ cell ∈ bd2.cells, cell.isSome = true) :=
  ⟨by decide, by decide, by decide,
    C3_local_board_status (createInitialGameState 3) 0 4 emptyBoard3
      (by decide) (by decide) (by decide)⟩

/-- C4: after a legal move, the recomputed top-level winner is a marker
exactly when that marker's local wins complete a full row, column, or
diagonal of the meta-board (whose cells are the local winners; a drawn
or unresolved board contributes an empty cell), with the same X-first
tie-break; and the top-level draw flag is set exactly when there is no
meta winner and every local board is resolved. -/
theorem C4_meta_status (s : GameState) (b c : Int) (bd : Board)
    (hcan : canPlayInBoard s b = true)
    (hbd : jsGet s.boards b = some bd)
    (hempty : jsGet bd.cells c = some none) :
    (∀ m, (makeMove s b c).winner = some m ↔
      specHasLine ((makeMove s b c).boards.map fun smallBoard => smallBoard.winner)
          s.size m ∧
        (m = Marker.O →
          ¬ specHasLine ((makeMove s b c).boards.map fun smallBoard => smallBoard.winner)
              s.size Marker.X)) ∧
    ((makeMove s b c).isDraw = true ↔
      (makeMove s b c).winner = none ∧
        ∀ smallBoard ∈ (makeMove s b c).boards, isBoardResolved smallBoard = true) := by
  rw [makeMove_eq_applyMove hcan hbd hempty]
  constructor
  · intro m
    rw [applyMove_winner]
    exact getLineWinner_eq_some_iff _ _ m
  · rw [applyMove_isDraw]
    simp [List.all_eq_true, Option.not_isSome_iff_eq_none, Bool.and_eq_true]

/-- Witness for C4 at the fresh 3-game, first move at board 0 cell 4. -/
theorem C4_witness :
    canPlayInBoard (createInitialGameState 3) 0 = true ∧
    jsGet (createInitialGameState 3).boards 0 = some emptyBoard3 ∧
    jsGet emptyBoard3.cells 4 = some none ∧
    ((makeMove (createInitialGameState 3) 0 4).isDraw = true ↔
      (makeMove (createInitialGameState 3) 0 4).winner = none ∧
        ∀ smallBoard ∈ (makeMove (createInitialGameState 3) 0 4).boards,
          isBoardResolved smallBoard = true) :=
  ⟨by decide, by decide, by decide,
    (C4_meta_status (createInitialGameState 3) 0 4 emptyBoard3
      (by decide) (by decide) (by decide)).2⟩

/-- C5: after a legal move at cell index `c`, the forced-board field of
the result is `c` exactly when the game is not over and local board `c`
exists and is unresolved in the result; it is cleared when the game is
over, cleared when board `c` is resolved or missing, and never refers
to a resolved board. -/
theorem C5_forced_board (s : GameState) (b c : Int) (bd : Board)
    (hcan : canPlayInBoard s b = true)
    (hbd : jsGet s.boards b = some bd)
    (hempty : jsGet bd.cells c = some none) :
    (((makeMove s b c).winner = none ∧ (makeMove s b c).isDraw = false) →
      ((makeMove s b c).nextBoardIndex = some c ↔
        ∃ nextBoard, jsGet (makeMove s b c).boards c = some nextBoard ∧
          isBoardResolved nextBoard = false) ∧
      (¬(∃ nextBoard, jsGet (makeMove s b c).boards c = some nextBoard ∧
          isBoardResolved nextBoard = false) →
        (makeMove s b c).nextBoardIndex = none)) ∧
    (((makeMove s b c).winner.isSome = true ∨ (makeMove s b c).isDraw = true) →
      (makeMove s b c).nextBoardIndex = none) ∧
    (∀ i, (makeMove s b c).nextBoardIndex = some i →
      ∃ nextBoard, jsGet (makeMove s b c).boards i = some nextBoard ∧
        isBoardResolved nextBoard = false) := by
  rw [makeMove_eq_applyMove hcan hbd hempty]
  have hni := applyMove_nextBoardIndex s bd b c
  refine ⟨?_, ?_, ?_⟩
  · rintro ⟨hw, hd⟩
    rw [if_neg (by simp [hw, hd])] at hni
    constructor
    · cases hj : jsGet (applyMove s bd b c).boards c with
      | none =>
        simp only [hj] at hni
        simp [hni, hj]
      | some nextBoard =>
        simp only [hj] at hni
        by_cases hres : isBoardResolved nextBoard = true
        · rw [if_pos hres] at hni
          simp only [hni]
          constructor
          · intro hfalse
            exact absurd hfalse (by simp)
          · rintro ⟨nb2, hnb2, hnbres⟩
            obtain rfl : nextBoard = nb2 := by injection hnb2
            rw [hres] at hnbres
            exact absurd hnbres (by simp)
        · rw [if_neg hres] at hni
          simp only [hni, true_iff]
          exact ⟨nextBoard, rfl, by simpa using hres⟩
    · intro hnone
      cases hj : jsGet (applyMove s bd b c).boards c with
      | none =>
        simp only [hj] at hni
        exact hni
      | some nextBoard =>
        simp only [hj] at hni
        by_cases hres : isBoardResolved nextBoard = true
        · rw [if_pos hres] at hni
          exact hni
        · exact absurd ⟨nextBoard, hj, by simpa using hres⟩ hnone
  · intro hover
    have hcond : ((applyMove s bd b c).winner.isSome ||
        (applyMove s bd b c).isDraw) = true := by
      rcases hover with hw | hd
      · simp [hw]
      · simp [hd]
    rw [if_pos hcond] at hni
    exact hni
  · intro i hi
    by_cases hover : ((applyMove s bd b c).winner.isSome ||
        (applyMove s bd b c).isDraw) = true
    · rw [if_pos hover] at hni
      rw [hni] at hi
      exact absurd hi (by simp)
    · rw [if_neg hover] at hni
      cases hj : jsGet (applyMove s bd b c).boards c with
      | none =>
        simp only [hj] at hni
        rw [hni] at hi
        exact absurd hi (by simp)
      | some nextBoard =>
        simp only [hj] at hni
        by_cases hres : isBoardResolved nextBoard = true
        · rw [if_pos hres] at hni
          rw [hni] at hi
          exact absurd hi (by simp)
        · rw [if_neg hres] at hni
          rw [hni] at hi
          obtain rfl : c = i := by injection hi
          exact ⟨nextBoard, hj, by simpa using hres⟩

/-- Witness for C5 at the fresh 3-game, first move at board 0 cell 4:
the game continues and board 4 is unresolved, so it becomes forced. -/
theorem C5_witness :
    canPlayInBoard (createInitialGameState 3) 0 = true ∧
    jsGet (createInitialGameState 3).boards 0 = some emptyBoard3 ∧
    jsGet emptyBoard3.cells 4 = some none ∧
    (makeMove (createInitialGameState 3) 0 4).nextBoardIndex = some 4 := by
  refine ⟨by decide, by decide, by decide, ?_⟩
  have h := ((C5_forced_board (createInitialGameState 3) 0 4 emptyBoard3
    (by decide) (by decide) (by decide)).1 (by decide)).1
  exact h.mpr ⟨emptyBoard3, by decide, by decide⟩

/-! Counting lemmas for C6. -/

theorem foldl_add_eq_sum {α : Type} (f : α → Nat) (l : List α) (n : Nat) :
    l.foldl (fun t x => t + f x) n = n + (l.map f).sum := by
  induction l generalizing n with
  | nil => simp
  | cons a l ih => simp [List.foldl_cons, ih, Nat.add_assoc]

theorem countBoardMoves_eq_sum (bd : Board) :
    countBoardMoves bd = (bd.cells.map fun v => if v.isSome then 1 else 0).sum := by
  unfold countBoardMoves
  rw [foldl_add_eq_sum]
  simp

theorem countMoves_eq_sum (boards : List Board) :
    countMoves boards = (boards.map countBoardMoves).sum := by
  unfold countMoves
  rw [foldl_add_eq_sum]
  simp

theorem map_sum_set {α : Type} (f : α → Nat) :
    ∀ (l : List α) (i : Nat) (v w : α), l[i]? = some v →
      ((l.set i w).map f).sum + f v = (l.map f).sum + f w := by
  intro l
  induction l with
  | nil =>
    intro i v w h
    simp at h
  | cons a l ih =>
    intro i v w h
    cases i with
    | zero =>
      simp only [List.getElem?_cons_zero, Option.some.injEq] at h
      subst h
      simp [List.set]
      omega
    | succ n =>
      simp only [List.getElem?_cons_succ] at h
      have hrec := ih n v w h
      simp only [List.set, List.map_cons, List.sum_cons]
      omega

theorem countMoves_applyMove (s : GameState) (bd : Board) (b c : Int)
    (hbd : jsGet s.boards b = some bd) (hempty : jsGet bd.cells c = some none) :
    countMoves (applyMove s bd b c).boards = countMoves s.boards + 1 := by
  obtain ⟨-, -, hbget⟩ := jsGet_eq_some hbd
  obtain ⟨-, -, hcget⟩ := jsGet_eq_some hempty
  rw [applyMove_boards, countMoves_eq_sum, countMoves_eq_sum]
  have houter := map_sum_set countBoardMoves s.boards b.toNat bd
    { cells := bd.cells.set c.toNat (some s.currentPlayer)
      winner := getLineWinner (bd.cells.set c.toNat (some s.currentPlayer)) s.size
      isDraw := !(getLineWinner (bd.cells.set c.toNat (some s.currentPlayer)) s.size).isSome &&
        (bd.cells.set c.toNat (some s.currentPlayer)).all fun cell => cell.isSome }
    hbget
  have hinner := map_sum_set (fun v : Option Marker => if v.isSome then 1 else 0)
    bd.cells c.toNat none (some s.currentPlayer) hcget
  have hnew : countBoardMoves
      { cells := bd.cells.set c.toNat (some s.currentPlayer)
        winner := getLineWinner (bd.cells.set c.toNat (some s.currentPlayer)) s.size
        isDraw := !(getLineWinner (bd.cells.set c.toNat (some s.currentPlayer)) s.size).isSome &&
          (bd.cells.set c.toNat (some s.currentPlayer)).all fun cell => cell.isSome } =
      countBoardMoves bd + 1 := by
    rw [countBoardMoves_eq_sum, countBoardMoves_eq_sum]
    simp only [Option.isSome_some, if_true, Option.isSome_none, if_neg] at hinner
    simpa using hinner
  rw [hnew] at houter
  omega

/-- C6: the invariant `moveCount = countMoves boards` is preserved by
every `makeMove` call, and a legal move raises both sides by exactly 1
(one previously empty cell becomes occupied). -/
theorem C6_moveCount_invariant (s : GameState) (b c : Int)
    (h : s.moveCount = countMoves s.boards) :
    (makeMove s b c).moveCount = countMoves (makeMove s b c).boards ∧
    (∀ bd, canPlayInBoard s b = true → jsGet s.boards b = some bd →
      jsGet bd.cells c = some none →
      (makeMove s b c).moveCount = s.moveCount + 1 ∧
      countMoves (makeMove s b c).boards = countMoves s.boards + 1) := by
  constructor
  · by_cases hcan : canPlayInBoard s b = true
    · cases hjs : jsGet s.boards b with
      | none =>
        rw [canPlayInBoard, hjs] at hcan
        split at hcan
        · exact absurd hcan (by simp)
        · exact absurd hcan (by simp)
      | some bd =>
        by_cases hempty : jsGet bd.cells c = some none
        · rw [makeMove_eq_applyMove hcan hjs hempty, applyMove_moveCount,
            countMoves_applyMove s bd b c hjs hempty, h]
        · rw [makeMove_of_occupied hjs hempty]
          exact h
    · rw [makeMove_of_cannot_play c (by simpa using hcan)]
      exact h
  · intro bd hcan hbd hempty
    rw [makeMove_eq_applyMove hcan hbd hempty, applyMove_moveCount,
      countMoves_applyMove s bd b c hbd hempty]
    exact ⟨rfl, rfl⟩

/-- Witness for C6 at the fresh 3-game, first move at board 0 cell 4. -/
theorem C6_witness :
    (createInitialGameState 3).moveCount = countMoves (createInitialGameState 3).boards ∧
    (makeMove (createInitialGameState 3) 0 4).moveCount =
      countMoves (makeMove (createInitialGameState 3) 0 4).boards := by
  refine ⟨by decide, ?_⟩
  exact (C6_moveCount_invariant (createInitialGameState 3) 0 4 (by decide)).1

/-- Counterexample for C8 as stated: the record returned by `makeMove`
carries no `lastMove` key. Its keys are those of the input state spread
(`createInitialGameState` produces exactly the seven engine fields)
together with the keys explicitly written in the return literal, and
`lastMove` is not among them, so no legal move records a `lastMove`
field. -/
theorem C8_no_lastMove_key :
    ¬ "lastMove" ∈ makeMoveResultKeys gameStateKeys := by decide

/-- C8 amended: `makeMove` adds no key to the state record: starting
from the seven keys of `createInitialGameState`, the returned object has
exactly those same seven keys, so the applied move is observable only
through the updated `boards`, `moveCount`, `nextBoardIndex`,
`currentPlayer`, `winner` and `isDraw` fields, not through any
`lastMove` record. -/
theorem C8_makeMove_adds_no_keys :
    makeMoveResultKeys gameStateKeys = gameStateKeys := by decide

/-! Well-formedness invariant and hydration round-trip (C9). -/

/-- Structural invariant maintained by the engine: the size is at least
2, the board list and every cell list have exactly `size * size`
entries, and a draw flag (local or top-level) excludes a winner. -/
def WF (s : GameState) : Prop :=
  2 ≤ s.size ∧
  s.boards.length = s.size * s.size ∧
  (∀ bd ∈ s.boards,
    bd.cells.length = s.size * s.size ∧ (bd.isDraw = true → bd.winner = none)) ∧
  (s.isDraw = true → s.winner = none)

theorem mem_of_getElem_eq_some {α : Type} {l : List α} {i : Nat} {a : α}
    (h : l[i]? = some a) : a ∈ l :=
  List.mem_iff_getElem?.mpr ⟨i, h⟩

theorem wf_createInitialGameState (n : Int) : WF (createInitialGameState n) := by
  have hb : (createInitialGameState n).boards =
      List.replicate (normalizeSize n * normalizeSize n)
        { cells := List.replicate (normalizeSize n * normalizeSize n) none
          winner := none, isDraw := false } := rfl
  refine ⟨?_, ?_, ?_, ?_⟩
  · show 2 ≤ normalizeSize n
    unfold normalizeSize
    split <;> omega
  · rw [hb]
    simp [createInitialGameState]
  · intro bd hbd
    rw [hb] at hbd
    have hbd2 := List.eq_of_mem_replicate hbd
    subst hbd2
    exact ⟨by simp [createInitialGameState], by simp⟩
  · intro h
    exact absurd h (by simp [createInitialGameState])

theorem canPlayInBoard_board_exists {s : GameState} {b : Int}
    (h : canPlayInBoard s b = true) : ∃ bd, jsGet s.boards b = some bd := by
  rw [canPlayInBoard] at h
  split at h
  · exact absurd h (by simp)
  · cases hjs : jsGet s.boards b with
    | none =>
      rw [hjs] at h
      exact absurd h (by simp)
    | some bd => exact ⟨bd, rfl⟩

theorem wf_makeMove {s : GameState} (b c : Int) (hwf : WF s) :
    WF (makeMove s b c) := by
  by_cases hcan : canPlayInBoard s b = true
  · obtain ⟨bd, hbd⟩ := canPlayInBoard_board_exists hcan
    by_cases hempty : jsGet bd.cells c = some none
    · rw [makeMove_eq_applyMove hcan hbd hempty]
      obtain ⟨hsize, hlen, hboards, -⟩ := hwf
      obtain ⟨hb0, hblt, hbget⟩ := jsGet_eq_some hbd
      have hbdmem : bd ∈ s.boards := mem_of_getElem_eq_some hbget
      refine ⟨?_, ?_, ?_, ?_⟩
      · rw [applyMove_size]
        exact hsize
      · rw [applyMove_boards, applyMove_size, List.length_set]
        exact hlen
      · intro bd2 hbd2
        rw [applyMove_boards] at hbd2
        rw [applyMove_size]
        rcases List.mem_or_eq_of_mem_set hbd2 with hmem | heq
        · exact hboards bd2 hmem
        · subst heq
          constructor
          · show (bd.cells.set c.toNat (some s.currentPlayer)).length = _
            rw [List.length_set]
            exact (hboards bd hbdmem).1
          · intro hdraw
            have hdraw2 : (!(getLineWinner (bd.cells.set c.toNat (some s.currentPlayer))
                s.size).isSome &&
                (bd.cells.set c.toNat (some s.currentPlayer)).all fun cell =>
                  cell.isSome) = true := hdraw
            rw [Bool.and_eq_true, Bool.not_eq_true'] at hdraw2
            show getLineWinner (bd.cells.set c.toNat (some s.currentPlayer)) s.size = none
            exact Option.not_isSome_iff_eq_none.mp (by simp [hdraw2.1])
      · intro hdraw
        rw [applyMove_isDraw] at hdraw
        rw [Bool.and_eq_true, Bool.not_eq_true'] at hdraw
        exact Option.not_isSome_iff_eq_none.mp (by simp [hdraw.1])
    · rw [makeMove_of_occupied hbd hempty]
      exact hwf
  · rw [makeMove_of_cannot_play c (by simpa using hcan)]
    exact hwf

theorem wf_of_reachable {s : GameState} (h : Reachable s) : WF s := by
  induction h with
  | init n => exact wf_createInitialGameState n
  | step s b c _ ih => exact wf_makeMove b c ih

theorem normalizeMarker_id (v : Option Marker) : normalizeMarker v = v := by
  rcases v with - | m
  · rfl
  · cases m <;> rfl

theorem range_map_reconstruct {α : Type} (xs : List α) (g : Nat → α)
    (hg : ∀ i, i < xs.length → ∀ h : i < xs.length, g i = xs[i]) :
    (List.range xs.length).map g = xs := by
  apply List.ext_getElem
  · simp
  · intro i h1 h2
    rw [List.getElem_map, List.getElem_range]
    exact hg i h2 h2

/-- Hydration is the identity on every field of a well-formed state
other than `nextBoardIndex` (which it also preserves, though the spec's
round-trip property does not list it). -/
theorem hydrate_preserves_of_wf (s : GameState) (hwf : WF s) :
    (hydrateGameState s).size = s.size ∧
    (hydrateGameState s).boards = s.boards ∧
    (hydrateGameState s).currentPlayer = s.currentPlayer ∧
    (hydrateGameState s).winner = s.winner ∧
    (hydrateGameState s).isDraw = s.isDraw ∧
    (hydrateGameState s).moveCount = s.moveCount := by
  obtain ⟨hsize, hlen, hboards, htop⟩ := hwf
  have hnsize : normalizeSize (s.size : Int) = s.size := by
    unfold normalizeSize
    split
    · omega
    · simp
  refine ⟨?_, ?_, ?_, ?_, ?_, rfl⟩
  · show normalizeSize (s.size : Int) = s.size
    exact hnsize
  · simp only [hydrateGameState]
    rw [hnsize, ← hlen]
    apply range_map_reconstruct
    intro i hi h
    have hraw : s.boards[i]? = some s.boards[i] := List.getElem?_eq_some.mpr ⟨h, rfl⟩
    have hmem : s.boards[i] ∈ s.boards := mem_of_getElem_eq_some hraw
    obtain ⟨hclen, hexcl⟩ := hboards s.boards[i] hmem
    simp only [hraw]
    have hcells : (List.range s.boards.length).map
        (fun cellIndex =>
          match s.boards[i].cells[cellIndex]? with
          | none => none
          | some rawCell => normalizeMarker rawCell) = s.boards[i].cells := by
      rw [hlen, ← hclen]
      apply range_map_reconstruct
      intro j hj hj2
      have hcraw : s.boards[i].cells[j]? = some (s.boards[i].cells[j]) :=
        List.getElem?_eq_some.mpr ⟨hj2, rfl⟩
      simp only [hcraw]
      exact normalizeMarker_id _
    have hwin : normalizeMarker s.boards[i].winner = s.boards[i].winner :=
      normalizeMarker_id _
    have hdraw : (!s.boards[i].winner.isSome &&
        s.boards[i].isDraw) = s.boards[i].isDraw := by
      cases hd : s.boards[i].isDraw
      · simp
      · rw [hexcl hd]
        simp
    rw [hcells, hwin, hdraw]
  · show (match s.currentPlayer with
      | Marker.O => Marker.O
      | _ => Marker.X) = s.currentPlayer
    cases s.currentPlayer <;> rfl
  · show normalizeMarker s.winner = s.winner
    exact normalizeMarker_id s.winner
  · show (!(normalizeMarker s.winner).isSome && s.isDraw) = s.isDraw
    rw [normalizeMarker_id]
    cases hd : s.isDraw
    · simp
    · rw [htop hd]
      simp

/-- C9: for every state reachable from `createInitialGameState` by
`makeMove` calls, hydrating its serialized form (the JSON round-trip is
the identity on these plain records) yields a state with identical
size, identical boards (cells, winner and draw flag of every local
board), identical current player, identical top-level winner and draw
flag, and identical move count. -/
theorem C9_hydrate_round_trip (s : GameState) (h : Reachable s) :
    (hydrateGameState s).size = s.size ∧
    (hydrateGameState s).boards = s.boards ∧
    (hydrateGameState s).currentPlayer = s.currentPlayer ∧
    (hydrateGameState s).winner = s.winner ∧
    (hydrateGameState s).isDraw = s.isDraw ∧
    (hydrateGameState s).moveCount = s.moveCount :=
  hydrate_preserves_of_wf s (wf_of_reachable h)

/-- Witness for C9 at the reachable state after the first move of the
fresh 3-game. -/
theorem C9_witness :
    Reachable (makeMove (createInitialGameState 3) 0 4) ∧
    (hydrateGameState (makeMove (createInitialGameState 3) 0 4)).boards =
      (makeMove (createInitialGameState 3) 0 4).boards ∧
    (hydrateGameState (makeMove (createInitialGameState 3) 0 4)).moveCount =
      (makeMove (createInitialGameState 3) 0 4).moveCount :=
  ⟨Reachable.step _ 0 4 (Reachable.init 3),
    (C9_hydrate_round_trip _ (Reachable.step _ 0 4 (Reachable.init 3))).2.1,
    (C9_hydrate_round_trip _ (Reachable.step _ 0 4 (Reachable.init 3))).2.2.2.2.2⟩

end SuperTTT
